import Mathlib

/-!
Shallow embedding of `src/telemetry/broker_throughput.py` (Python 2).

Modelling choices:
* Wall-clock timestamps (`time()`) are rationals; every operation that reads
  the clock takes the current time `tnow` as an explicit argument.
* `seconds_per_bin` / `ticklen` is a natural number (the script only ever
  passes integers; `k / ticklen` in `TimeHistogram.sum` / `mean` is Python 2
  integer floor division on ints).
* Histogram bins are rationals, because `latency_hist.add(latency)` adds a
  float latency.
* The `while tnow - last_tick >= ticklen` loop of `check_for_tick_changed`
  is embedded as iterating the loop body `ticksDue` times, where `ticksDue`
  is the loop's exact iteration count; `check_unfold` below proves the
  one-step loop-unfolding equation justifying this translation for any
  positive `ticklen`.
* Python's `dict` is an association list whose keys stay unique under
  `dictInsert` (insert-or-overwrite) / `dictPop`.
* `int(data['points'])` is `pyInt?`; a `none` result corresponds to the
  `ValueError` Python raises on a non-numeric string, so `process_burst`
  returns `Except Unit _` with `Except.error ()` marking the unhandled
  exception escaping.
-/

/-- Rolling histogram state: the fields of `TimeAware.__init__` (with
`ticklen = seconds_per_bin`) together with the fields of
`TimeHistogram.__init__` (`nbins`, `_bins`, `current_bin`). -/
structure TimeHistogram where
  ticklen : ℕ
  start_time : ℚ
  last_tick : ℚ
  n_ticks : ℕ
  totalticktime : ℕ
  nbins : ℕ
  bins : List ℚ
  current_bin : ℕ
  deriving DecidableEq

/-- `TimeHistogram.__init__(nbins, seconds_per_bin)` at construction time `t`:
`last_tick = start_time = time()`, counters zero, `nbins` zero bins,
`current_bin = 0`. -/
def mkHist (nbins : ℕ) (seconds_per_bin : ℕ) (t : ℚ) : TimeHistogram :=
  { ticklen := seconds_per_bin, start_time := t, last_tick := t, n_ticks := 0,
    totalticktime := 0, nbins := nbins, bins := List.replicate nbins 0,
    current_bin := 0 }

/-- `TimeHistogram.on_tick_change`: advance `current_bin` one position modulo
`nbins` and zero the newly current bin. -/
def TimeHistogram.on_tick_change (h : TimeHistogram) : TimeHistogram :=
  let cb := (h.current_bin + 1) % h.nbins
  { h with current_bin := cb, bins := h.bins.set cb 0 }

/-- One iteration of the `while` body of `TimeAware.check_for_tick_changed`:
bump `n_ticks`, `totalticktime` and `last_tick`, then run `on_tick_change`. -/
def TimeHistogram.tickBody (h : TimeHistogram) : TimeHistogram :=
  TimeHistogram.on_tick_change
    { h with n_ticks := h.n_ticks + 1,
             totalticktime := h.totalticktime + h.ticklen,
             last_tick := h.last_tick + (h.ticklen : ℚ) }

/-- Number of iterations the loop `while tnow - last_tick >= ticklen` performs
(for positive `ticklen`): `⌊(tnow - last_tick) / ticklen⌋`, clamped to zero
when the elapsed time is negative. -/
def TimeHistogram.ticksDue (h : TimeHistogram) (tnow : ℚ) : ℕ :=
  (⌊(tnow - h.last_tick) / (h.ticklen : ℚ)⌋).toNat

/-- `TimeAware.check_for_tick_changed` at current time `tnow`: run the loop
body once for every whole `ticklen` interval elapsed since `last_tick`. -/
def TimeHistogram.check_for_tick_changed (h : TimeHistogram) (tnow : ℚ) : TimeHistogram :=
  TimeHistogram.tickBody^[h.ticksDue tnow] h

/-- `TimeHistogram.add(n)`: force a tick-advance check, then add `n` to the
current bin. -/
def TimeHistogram.add (h : TimeHistogram) (tnow : ℚ) (n : ℚ) : TimeHistogram :=
  let h' := h.check_for_tick_changed tnow
  { h' with bins := h'.bins.set h'.current_bin (h'.bins.getD h'.current_bin 0 + n) }

/-- The slice expression of the `bins` property:
`_bins[current_bin+1:] + _bins[:current_bin+1]`, oldest to newest. -/
def TimeHistogram.orderedBins (h : TimeHistogram) : List ℚ :=
  h.bins.drop (h.current_bin + 1) ++ h.bins.take (h.current_bin + 1)

/-- The `bins` property: forces a tick-advance check (mutating the state),
then returns the bins in time order. -/
def TimeHistogram.binsRead (h : TimeHistogram) (tnow : ℚ) : List ℚ × TimeHistogram :=
  let h' := h.check_for_tick_changed tnow
  (h'.orderedBins, h')

/-- Python's `l[-b:]` for a nonnegative `b`: the whole list when `b = 0`
(since `l[-0:] = l[0:] = l`), otherwise the last `b` elements (all of them
when `b` exceeds the length). -/
def pySliceLast (l : List ℚ) (b : ℕ) : List ℚ :=
  if b = 0 then l else l.drop (l.length - b)

/-- `TimeHistogram.sum(k)`: `bins_to_check = k / ticklen` (integer floor
division), then the sum of `self.bins[-bins_to_check:]`; reading the `bins`
property advances the tick state, so the pair carries the new state. -/
def TimeHistogram.sum (h : TimeHistogram) (tnow : ℚ) (k : ℕ) : ℚ × TimeHistogram :=
  let b := k / h.ticklen
  let r := h.binsRead tnow
  ((pySliceLast r.1 b).sum, r.2)

/-- `TimeHistogram.mean(k)`: clamp `k` to `totalticktime` (read before any
tick advance), compute `bins_to_check`, and return
`self.sum(k) / float(bins_to_check) if bins_to_check else 0`; when
`bins_to_check` is zero, `self.sum` is never evaluated, so the state is
untouched. -/
def TimeHistogram.mean (h : TimeHistogram) (tnow : ℚ) (k : ℕ) : ℚ × TimeHistogram :=
  let k' := if h.totalticktime < k then h.totalticktime else k
  let b := k' / h.ticklen
  if b = 0 then (0, h)
  else
    let r := h.sum tnow k'
    (r.1 / (b : ℚ), r.2)

/-- Structural invariant of a histogram: the bin list has exactly `nbins`
entries and the current-bin index is in range. -/
def TimeHistogram.Inv (h : TimeHistogram) : Prop :=
  h.bins.length = h.nbins ∧ h.current_bin < h.nbins

/-- Value of the current (still-open) bin. -/
def TimeHistogram.currentVal (h : TimeHistogram) : ℚ :=
  h.bins.getD h.current_bin 0

/-- Python `int(s)` on an already-stripped string: optional sign followed by
at least one decimal digit, `none` for the `ValueError` case. -/
def pyInt? (s : String) : Option ℤ :=
  let digitsVal : List Char → ℤ := fun cs =>
    cs.foldl (fun a c => a * 10 + ((c.toNat - 48 : ℕ) : ℤ)) 0
  match s.toList with
  | [] => none
  | '-' :: rest =>
    if rest ≠ [] ∧ rest.all Char.isDigit then some (-(digitsVal rest)) else none
  | '+' :: rest =>
    if rest ≠ [] ∧ rest.all Char.isDigit then some (digitsVal rest) else none
  | cs =>
    if cs.all Char.isDigit then some (digitsVal cs) else none

/-- The fields of a parsed burst/ack record that `process_burst` /
`process_ack` access: `data['identity']`, `data['message id']`,
`data['points']`; a `none` field models a key absent from the dict. -/
structure Record where
  identity : Option String
  message_id : Option String
  points : Option String
  deriving DecidableEq

/-- Dictionary entry map: insert-or-overwrite for
`self.outstanding_bursts[msgtag] = timestamp, points`. -/
def dictInsert (d : List (String × (ℚ × ℤ))) (k : String) (v : ℚ × ℤ) :
    List (String × (ℚ × ℤ)) :=
  (d.filter (fun p => p.1 ≠ k)) ++ [(k, v)]

/-- Dictionary removal, for `self.outstanding_bursts.pop(msgtag)`. -/
def dictPop (d : List (String × (ℚ × ℤ))) (k : String) : List (String × (ℚ × ℤ)) :=
  d.filter (fun p => p.1 ≠ k)

/-- Dictionary lookup, for `msgtag in self.outstanding_bursts` and the value
read by `pop`. -/
def dictFind (d : List (String × (ℚ × ℤ))) (k : String) : Option (ℚ × ℤ) :=
  match d with
  | [] => none
  | p :: rest => if p.1 = k then some p.2 else dictFind rest k

/-- `ThroughputCounter` state: the five 600-bin histograms and the
`outstanding_bursts` dict (`burstid -> start timestamp, points`); the input
stream and line-reader state are irrelevant to the aggregator semantics and
omitted. -/
structure ThroughputCounter where
  point_hist : TimeHistogram
  burst_hist : TimeHistogram
  acked_burst_hist : TimeHistogram
  latency_hist : TimeHistogram
  ack_hist : TimeHistogram
  outstanding_bursts : List (String × (ℚ × ℤ))
  deriving DecidableEq

/-- `ThroughputCounter.__init__` at construction time `t`: five fresh
`TimeHistogram(600)` (so `seconds_per_bin = 1`) and an empty dict. -/
def mkThroughputCounter (t : ℚ) : ThroughputCounter :=
  { point_hist := mkHist 600 1 t, burst_hist := mkHist 600 1 t,
    acked_burst_hist := mkHist 600 1 t, latency_hist := mkHist 600 1 t,
    ack_hist := mkHist 600 1 t, outstanding_bursts := [] }

/-- `ThroughputCounter.process_burst(data)`: if `identity`, `message id` or
`points` is missing, log and return unchanged; otherwise store
`(timestamp, int(points))` under `identity + message id`, then
`burst_hist.add(1)` and `point_hist.add(points)`. A non-numeric `points`
makes `int` raise, modelled as `Except.error ()`. -/
def ThroughputCounter.process_burst (c : ThroughputCounter) (tnow : ℚ) (data : Record) :
    Except Unit ThroughputCounter :=
  match data.identity, data.message_id, data.points with
  | some ident, some mid, some pts =>
    let msgtag := ident ++ mid
    match pyInt? pts with
    | none => Except.error ()
    | some points =>
      let c1 := { c with
        outstanding_bursts := dictInsert c.outstanding_bursts msgtag (tnow, points) }
      let c2 := { c1 with burst_hist := c1.burst_hist.add tnow 1 }
      Except.ok { c2 with point_hist := c2.point_hist.add tnow (points : ℚ) }
  | _, _, _ => Except.ok c

/-- `ThroughputCounter.process_ack(data)`: if `identity` or `message id` is
missing, log and return unchanged; if the key has no outstanding burst,
silently return; otherwise pop the entry, and add the stored point count to
`ack_hist`, `1` to `acked_burst_hist`, and the latency (now minus the stored
burst timestamp) to `latency_hist`. -/
def ThroughputCounter.process_ack (c : ThroughputCounter) (tnow : ℚ) (data : Record) :
    ThroughputCounter :=
  match data.identity, data.message_id with
  | some ident, some mid =>
    let msgtag := ident ++ mid
    match dictFind c.outstanding_bursts msgtag with
    | none => c
    | some bp =>
      let c1 := { c with outstanding_bursts := dictPop c.outstanding_bursts msgtag }
      let latency := tnow - bp.1
      let c2 := { c1 with ack_hist := c1.ack_hist.add tnow (bp.2 : ℚ) }
      let c3 := { c2 with acked_burst_hist := c2.acked_burst_hist.add tnow 1 }
      { c3 with latency_hist := c3.latency_hist.add tnow latency }
  | _, _ => c

/-- Sequential `map(hist.sum, ks)` on one histogram: each call advances the
histogram's tick state, which the next call then sees. -/
def mapSum (h : TimeHistogram) (tnow : ℚ) : List ℕ → List ℚ × TimeHistogram
  | [] => ([], h)
  | k :: ks =>
    let r := h.sum tnow k
    let rest := mapSum r.2 tnow ks
    (r.1 :: rest.1, rest.2)

/-- `ThroughputCounter.get_outstanding(last_n_seconds)`:
`map(point_hist.sum, ·)` and `map(ack_hist.sum, ·)`, zipped with
subtraction. -/
def ThroughputCounter.get_outstanding (c : ThroughputCounter) (tnow : ℚ) (hs : List ℕ) :
    List ℚ × ThroughputCounter :=
  let tb := mapSum c.point_hist tnow hs
  let ta := mapSum c.ack_hist tnow hs
  (List.zipWith (fun nb na => nb - na) tb.1 ta.1,
   { c with point_hist := tb.2, ack_hist := ta.2 })

/-- `ThroughputCounter.get_total_outstanding_points`: sum of the point counts
stored in `outstanding_bursts`. -/
def ThroughputCounter.get_total_outstanding_points (c : ThroughputCounter) : ℤ :=
  (c.outstanding_bursts.map (fun p => p.2.2)).sum

/-! ## Basic lemmas about the tick machinery -/

theorem tickBody_ticklen (h : TimeHistogram) : h.tickBody.ticklen = h.ticklen := rfl

theorem tickBody_nbins (h : TimeHistogram) : h.tickBody.nbins = h.nbins := rfl

theorem tickBody_last_tick (h : TimeHistogram) :
    h.tickBody.last_tick = h.last_tick + (h.ticklen : ℚ) := rfl

theorem tickBody_n_ticks (h : TimeHistogram) : h.tickBody.n_ticks = h.n_ticks + 1 := rfl

theorem tickBody_totalticktime (h : TimeHistogram) :
    h.tickBody.totalticktime = h.totalticktime + h.ticklen := rfl

theorem tickBody_current_bin (h : TimeHistogram) :
    h.tickBody.current_bin = (h.current_bin + 1) % h.nbins := rfl

theorem tickBody_bins (h : TimeHistogram) :
    h.tickBody.bins = h.bins.set ((h.current_bin + 1) % h.nbins) 0 := rfl

theorem tickBody_bins_length (h : TimeHistogram) :
    h.tickBody.bins.length = h.bins.length := by
  rw [tickBody_bins, List.length_set]

theorem iterate_tickBody_ticklen (h : TimeHistogram) (m : ℕ) :
    (TimeHistogram.tickBody^[m] h).ticklen = h.ticklen := by
  induction m generalizing h with
  | zero => rfl
  | succ m ih => rw [Function.iterate_succ_apply, ih, tickBody_ticklen]

theorem iterate_tickBody_nbins (h : TimeHistogram) (m : ℕ) :
    (TimeHistogram.tickBody^[m] h).nbins = h.nbins := by
  induction m generalizing h with
  | zero => rfl
  | succ m ih => rw [Function.iterate_succ_apply, ih, tickBody_nbins]

theorem iterate_tickBody_last_tick (h : TimeHistogram) (m : ℕ) :
    (TimeHistogram.tickBody^[m] h).last_tick = h.last_tick + (m * h.ticklen : ℕ) := by
  induction m generalizing h with
  | zero => simp
  | succ m ih =>
    rw [Function.iterate_succ_apply, ih, tickBody_last_tick, tickBody_ticklen]
    push_cast
    ring

theorem iterate_tickBody_n_ticks (h : TimeHistogram) (m : ℕ) :
    (TimeHistogram.tickBody^[m] h).n_ticks = h.n_ticks + m := by
  induction m generalizing h with
  | zero => rfl
  | succ m ih =>
    rw [Function.iterate_succ_apply, ih, tickBody_n_ticks]
    omega

theorem iterate_tickBody_totalticktime (h : TimeHistogram) (m : ℕ) :
    (TimeHistogram.tickBody^[m] h).totalticktime = h.totalticktime + m * h.ticklen := by
  induction m generalizing h with
  | zero => simp
  | succ m ih =>
    rw [Function.iterate_succ_apply, ih, tickBody_totalticktime, tickBody_ticklen]
    ring

theorem iterate_tickBody_bins_length (h : TimeHistogram) (m : ℕ) :
    (TimeHistogram.tickBody^[m] h).bins.length = h.bins.length := by
  induction m generalizing h with
  | zero => rfl
  | succ m ih => rw [Function.iterate_succ_apply, ih, tickBody_bins_length]

theorem iterate_tickBody_current_bin (h : TimeHistogram) (m : ℕ)
    (hcb : h.current_bin < h.nbins) :
    (TimeHistogram.tickBody^[m] h).current_bin = (h.current_bin + m) % h.nbins := by
  induction m with
  | zero => simpa using (Nat.mod_eq_of_lt hcb).symm
  | succ m ih =>
    rw [Function.iterate_succ_apply', tickBody_current_bin, iterate_tickBody_nbins, ih]
    have hmod := (Nat.mod_modEq (h.current_bin + m) h.nbins).add_right 1
    simp only [← Nat.add_assoc]
    exact hmod

theorem ticksDue_last_tick (h : TimeHistogram) : h.ticksDue h.last_tick = 0 := by
  simp [TimeHistogram.ticksDue]

theorem check_last_tick (h : TimeHistogram) :
    h.check_for_tick_changed h.last_tick = h := by
  rw [TimeHistogram.check_for_tick_changed, ticksDue_last_tick]
  rfl

theorem ticksDue_eq_zero (h : TimeHistogram) (tnow : ℚ)
    (ht : 0 < h.ticklen) (hlt : tnow - h.last_tick < (h.ticklen : ℚ)) :
    h.ticksDue tnow = 0 := by
  have htQ : (0 : ℚ) < (h.ticklen : ℚ) := by exact_mod_cast ht
  have hdiv : (tnow - h.last_tick) / (h.ticklen : ℚ) < 1 := (div_lt_one htQ).mpr hlt
  have hfl : ⌊(tnow - h.last_tick) / (h.ticklen : ℚ)⌋ < 1 :=
    Int.floor_lt.mpr (by exact_mod_cast hdiv)
  rw [TimeHistogram.ticksDue]
  omega

theorem check_eq_self_of_lt (h : TimeHistogram) (tnow : ℚ)
    (ht : 0 < h.ticklen) (hlt : tnow - h.last_tick < (h.ticklen : ℚ)) :
    h.check_for_tick_changed tnow = h := by
  rw [TimeHistogram.check_for_tick_changed, ticksDue_eq_zero h tnow ht hlt]
  rfl

theorem ticksDue_tickBody (h : TimeHistogram) (tnow : ℚ) (ht : 0 < h.ticklen)
    (hdue : (h.ticklen : ℚ) ≤ tnow - h.last_tick) :
    h.tickBody.ticksDue tnow = h.ticksDue tnow - 1 ∧ 1 ≤ h.ticksDue tnow := by
  have htQ : (0 : ℚ) < (h.ticklen : ℚ) := by exact_mod_cast ht
  have h1 : (1 : ℚ) ≤ (tnow - h.last_tick) / (h.ticklen : ℚ) := (one_le_div htQ).mpr hdue
  have hfl1 : 1 ≤ ⌊(tnow - h.last_tick) / (h.ticklen : ℚ)⌋ :=
    Int.le_floor.mpr (by exact_mod_cast h1)
  constructor
  · rw [TimeHistogram.ticksDue, TimeHistogram.ticksDue, tickBody_last_tick, tickBody_ticklen]
    have hsub : tnow - (h.last_tick + (h.ticklen : ℚ)) = tnow - h.last_tick - (h.ticklen : ℚ) := by
      ring
    rw [hsub, sub_div, div_self (ne_of_gt htQ), Int.floor_sub_one]
    omega
  · rw [TimeHistogram.ticksDue]
    omega

/-- One-step unfolding of the `while tnow - last_tick >= ticklen` loop: for a
positive tick length, the embedding `check_for_tick_changed` satisfies the
exact loop equation of the source, certifying the translation of the loop
into an iteration count. -/
theorem check_unfold (h : TimeHistogram) (tnow : ℚ) (ht : 0 < h.ticklen) :
    h.check_for_tick_changed tnow =
      if (h.ticklen : ℚ) ≤ tnow - h.last_tick
      then h.tickBody.check_for_tick_changed tnow
      else h := by
  by_cases hc : (h.ticklen : ℚ) ≤ tnow - h.last_tick
  · rw [if_pos hc, TimeHistogram.check_for_tick_changed, TimeHistogram.check_for_tick_changed]
    obtain ⟨hstep, hone⟩ := ticksDue_tickBody h tnow ht hc
    rw [hstep]
    obtain ⟨n, hn⟩ : ∃ n, h.ticksDue tnow = n + 1 := ⟨h.ticksDue tnow - 1, by omega⟩
    rw [hn]
    simp [Function.iterate_succ_apply]
  · rw [if_neg hc, check_eq_self_of_lt h tnow ht (lt_of_not_le hc)]

theorem check_ticklen (h : TimeHistogram) (tnow : ℚ) :
    (h.check_for_tick_changed tnow).ticklen = h.ticklen :=
  iterate_tickBody_ticklen h _

theorem check_nbins (h : TimeHistogram) (tnow : ℚ) :
    (h.check_for_tick_changed tnow).nbins = h.nbins :=
  iterate_tickBody_nbins h _

theorem check_bins_length (h : TimeHistogram) (tnow : ℚ) :
    (h.check_for_tick_changed tnow).bins.length = h.bins.length :=
  iterate_tickBody_bins_length h _

theorem check_totalticktime (h : TimeHistogram) (tnow : ℚ) :
    (h.check_for_tick_changed tnow).totalticktime
      = h.totalticktime + h.ticksDue tnow * h.ticklen :=
  iterate_tickBody_totalticktime h _

theorem check_n_ticks (h : TimeHistogram) (tnow : ℚ) :
    (h.check_for_tick_changed tnow).n_ticks = h.n_ticks + h.ticksDue tnow :=
  iterate_tickBody_n_ticks h _

theorem ticksDue_check (h : TimeHistogram) (tnow : ℚ) (ht : 0 < h.ticklen) :
    (h.check_for_tick_changed tnow).ticksDue tnow = 0 := by
  have htQ : (0 : ℚ) < (h.ticklen : ℚ) := by exact_mod_cast ht
  have hticklen : (h.check_for_tick_changed tnow).ticklen = h.ticklen := check_ticklen h tnow
  apply ticksDue_eq_zero
  · rw [hticklen]; exact ht
  · rw [hticklen, TimeHistogram.check_for_tick_changed, iterate_tickBody_last_tick]
    have hfl := Int.lt_floor_add_one ((tnow - h.last_tick) / (h.ticklen : ℚ))
    have hle : ((⌊(tnow - h.last_tick) / (h.ticklen : ℚ)⌋ : ℚ)) ≤ (h.ticksDue tnow : ℚ) := by
      rw [TimeHistogram.ticksDue]
      exact_mod_cast Int.self_le_toNat _
    have hlt : (tnow - h.last_tick) / (h.ticklen : ℚ) < (h.ticksDue tnow : ℚ) + 1 := by
      calc (tnow - h.last_tick) / (h.ticklen : ℚ)
        < (⌊(tnow - h.last_tick) / (h.ticklen : ℚ)⌋ : ℚ) + 1 := hfl
      _ ≤ (h.ticksDue tnow : ℚ) + 1 := by linarith
    have hmul := (div_lt_iff₀ htQ).mp hlt
    push_cast
    push_cast at hmul
    linarith

theorem check_idem (h : TimeHistogram) (tnow : ℚ) (ht : 0 < h.ticklen) :
    (h.check_for_tick_changed tnow).check_for_tick_changed tnow
      = h.check_for_tick_changed tnow := by
  rw [TimeHistogram.check_for_tick_changed, ticksDue_check h tnow ht]
  rfl

/-! ## Invariant preservation -/

theorem Inv_tickBody (h : TimeHistogram) (hI : h.Inv) : h.tickBody.Inv := by
  obtain ⟨hlen, hcb⟩ := hI
  refine ⟨?_, ?_⟩
  · rw [tickBody_bins_length, hlen, tickBody_nbins]
  · rw [tickBody_current_bin, tickBody_nbins]
    exact Nat.mod_lt _ (by omega)

theorem Inv_iterate_tickBody (h : TimeHistogram) (m : ℕ) (hI : h.Inv) :
    (TimeHistogram.tickBody^[m] h).Inv := by
  induction m generalizing h with
  | zero => exact hI
  | succ m ih => rw [Function.iterate_succ_apply]; exact ih _ (Inv_tickBody h hI)

theorem Inv_check (h : TimeHistogram) (tnow : ℚ) (hI : h.Inv) :
    (h.check_for_tick_changed tnow).Inv :=
  Inv_iterate_tickBody h _ hI

theorem add_current_bin (h : TimeHistogram) (tnow : ℚ) (n : ℚ) :
    (h.add tnow n).current_bin = (h.check_for_tick_changed tnow).current_bin := rfl

theorem add_bins (h : TimeHistogram) (tnow : ℚ) (n : ℚ) :
    (h.add tnow n).bins =
      (h.check_for_tick_changed tnow).bins.set
        (h.check_for_tick_changed tnow).current_bin
        ((h.check_for_tick_changed tnow).bins.getD
          (h.check_for_tick_changed tnow).current_bin 0 + n) := rfl

theorem Inv_add (h : TimeHistogram) (tnow : ℚ) (n : ℚ) (hI : h.Inv) :
    (h.add tnow n).Inv := by
  obtain ⟨hlen, hcb⟩ := Inv_check h tnow hI
  exact ⟨by rw [add_bins, List.length_set]; exact hlen, hcb⟩

theorem currentVal_add (h : TimeHistogram) (tnow : ℚ) (n : ℚ) (hI : h.Inv) :
    (h.add tnow n).currentVal = (h.check_for_tick_changed tnow).currentVal + n := by
  obtain ⟨hlen, hcb⟩ := Inv_check h tnow hI
  rw [TimeHistogram.currentVal, TimeHistogram.currentVal, add_bins, add_current_bin,
    List.getD_eq_getElem?_getD, List.getElem?_set_self (by omega), List.getD_eq_getElem?_getD]
  rfl

theorem mean_state (h : TimeHistogram) (tnow : ℚ) (k : ℕ) :
    (h.mean tnow k).2 = h ∨ (h.mean tnow k).2 = h.check_for_tick_changed tnow := by
  rw [TimeHistogram.mean]
  split
  · split
    · left; rfl
    · right; rfl
  · split
    · left; rfl
    · right; rfl

/-! ## Claim theorems -/

/-- C8: if the clock moved backward, so that the elapsed time since the last
tick boundary is negative, the tick-advance check performs zero loop
iterations and leaves the whole histogram state — current-bin index, bins and
tick counters — unchanged; together with `check_unfold` this shows the while
loop exits immediately, producing no negative bin index. -/
theorem clock_regression_no_advance (h : TimeHistogram) (tnow : ℚ)
    (ht : 0 < h.ticklen) (hneg : tnow - h.last_tick < 0) :
    h.ticksDue tnow = 0 ∧ h.check_for_tick_changed tnow = h := by
  have hlt : tnow - h.last_tick < (h.ticklen : ℚ) :=
    lt_of_lt_of_le hneg (by exact_mod_cast Nat.zero_le h.ticklen)
  exact ⟨ticksDue_eq_zero h tnow ht hlt, check_eq_self_of_lt h tnow ht hlt⟩

/-- Witness for C8 at a concrete input: a histogram whose clock reads `4`
after its last tick boundary `5`. -/
theorem clock_regression_no_advance_witness :
    (mkHist 3 1 5).ticksDue 4 = 0 ∧ (mkHist 3 1 5).check_for_tick_changed 4 = mkHist 3 1 5 :=
  clock_regression_no_advance (mkHist 3 1 5) 4 (by norm_num [mkHist])
    (by norm_num [mkHist])

/-- C9: for `k_seconds` strictly smaller than `seconds_per_bin`, the integer
division `k / ticklen` is `0`, the Python slice `bins[-0:]` is the entire
list, and `sum` returns the sum of all `bin_count` bins (the full-window
total after the tick-advance check) rather than `0`. -/
theorem sum_small_k_full_window (h : TimeHistogram) (tnow : ℚ) (k : ℕ)
    (hk : k < h.ticklen) (hI : h.Inv) :
    (h.sum tnow k).1 = (h.check_for_tick_changed tnow).bins.sum ∧
    (h.binsRead tnow).1.length = h.nbins := by
  have hdiv : k / h.ticklen = 0 := Nat.div_eq_of_lt hk
  have hlen := check_bins_length h tnow
  have hnb := check_nbins h tnow
  constructor
  · simp only [TimeHistogram.sum, TimeHistogram.binsRead, hdiv, pySliceLast, if_pos,
      TimeHistogram.orderedBins, List.sum_append]
    rw [add_comm, List.sum_take_add_sum_drop]
  · simp only [TimeHistogram.binsRead, TimeHistogram.orderedBins, List.length_append,
      List.length_drop, List.length_take]
    rw [hlen, hI.1]
    omega

/-- Witness for C9 at a concrete input: a fresh 3-bin histogram with
2-second bins queried with `k = 1`. -/
theorem sum_small_k_full_window_witness :
    ((mkHist 3 2 0).sum 0 1).1 = ((mkHist 3 2 0).check_for_tick_changed 0).bins.sum ∧
    ((mkHist 3 2 0).binsRead 0).1.length = (mkHist 3 2 0).nbins :=
  sum_small_k_full_window (mkHist 3 2 0) 0 1 (by norm_num [mkHist])
    (by norm_num [TimeHistogram.Inv, mkHist])

/-- C10: each histogram operation — a tick-advance step, the full
tick-advance check, `add`, the ordered-bins read, `sum` and `mean` —
preserves the structural invariant that the bin list has exactly `nbins`
entries and `current_bin < nbins`. -/
theorem rolling_window_inv_preserved (h : TimeHistogram) (tnow : ℚ) (n : ℚ) (k : ℕ)
    (hI : h.Inv) :
    h.tickBody.Inv ∧ (h.check_for_tick_changed tnow).Inv ∧ (h.add tnow n).Inv ∧
    ((h.binsRead tnow).2).Inv ∧ ((h.sum tnow k).2).Inv ∧ ((h.mean tnow k).2).Inv := by
  refine ⟨Inv_tickBody h hI, Inv_check h tnow hI, Inv_add h tnow n hI,
    Inv_check h tnow hI, Inv_check h tnow hI, ?_⟩
  rcases mean_state h tnow k with hm | hm
  · rw [hm]; exact hI
  · rw [hm]; exact Inv_check h tnow hI

/-- Witness for C10 at a concrete input. -/
theorem rolling_window_inv_preserved_witness :
    (mkHist 2 1 0).tickBody.Inv ∧ ((mkHist 2 1 0).check_for_tick_changed 5).Inv ∧
    ((mkHist 2 1 0).add 5 3).Inv ∧ (((mkHist 2 1 0).binsRead 5).2).Inv ∧
    (((mkHist 2 1 0).sum 5 7).2).Inv ∧ (((mkHist 2 1 0).mean 5 7).2).Inv :=
  rolling_window_inv_preserved (mkHist 2 1 0) 5 3 7
    (by norm_num [TimeHistogram.Inv, mkHist])

/-- C7: a well-formed ack record whose key `identity ++ message_id` has no
outstanding burst entry hits the early `return`: the whole aggregator state —
every window's bins and the outstanding table, hence the outstanding point
total — is returned unchanged, and `process_ack` is total (it cannot
raise). -/
theorem unmatched_ack_noop (c : ThroughputCounter) (tnow : ℚ) (ident mid : String)
    (pts : Option String)
    (hnone : dictFind c.outstanding_bursts (ident ++ mid) = none) :
    c.process_ack tnow ⟨some ident, some mid, pts⟩ = c := by
  simp only [ThroughputCounter.process_ack, hnone]

/-- Witness for C7 at a concrete input: an ack for key `"ab"` against a
freshly constructed counter. -/
theorem unmatched_ack_noop_witness :
    (mkThroughputCounter 0).process_ack 3 ⟨some "a", some "b", none⟩ = mkThroughputCounter 0 :=
  unmatched_ack_noop (mkThroughputCounter 0) 3 "a" "b" none rfl

/-- The last `b` bins of a chronologically ordered bin list (all of them when
`b` exceeds the length): the claim's notion of the bins a horizon covers. -/
def lastN (l : List ℚ) (b : ℕ) : List ℚ := l.drop (l.length - b)

/-- Histogram with `seconds_per_bin = 2` filled by one `add` per tick:
its state is `bins = [1, 2, 3, 4]`, `current_bin = 3`, `last_tick = 6`. -/
def histC3 : TimeHistogram := ((((mkHist 4 2 0).add 0 1).add 2 2).add 4 3).add 6 4

theorem histC3_eq : histC3 = ⟨2, 0, 6, 3, 6, 4, [1, 2, 3, 4], 3⟩ := by
  norm_num [histC3, mkHist, TimeHistogram.add, TimeHistogram.check_for_tick_changed,
    TimeHistogram.ticksDue, TimeHistogram.tickBody, TimeHistogram.on_tick_change,
    Int.toNat_ofNat, List.replicate]

/-- C3 counterexample: with `seconds_per_bin = 2`, `sum(3)` computes
`bins_to_check = 3 / 2 = 1` (floor), so it returns the last single bin, `4`;
the claim's `ceil(3 / 2) = 2` would cover the last two bins, `3 + 4 = 7`.
The claim's value differs from what the code returns. -/
theorem sum_ceil_cex :
    (histC3.sum 6 3).1 = 4 ∧
    (lastN (histC3.binsRead 6).1 ((3 + histC3.ticklen - 1) / histC3.ticklen)).sum = 7 ∧
    (4 : ℚ) ≠ 7 := by
  refine ⟨?_, ?_, by norm_num⟩
  · norm_num [histC3_eq, TimeHistogram.sum, TimeHistogram.binsRead, pySliceLast,
      TimeHistogram.check_for_tick_changed, TimeHistogram.ticksDue,
      TimeHistogram.orderedBins]
  · norm_num [histC3_eq, lastN, TimeHistogram.binsRead,
      TimeHistogram.check_for_tick_changed, TimeHistogram.ticksDue,
      TimeHistogram.orderedBins]

/-- C3 (amended): `sum_over(k_seconds)` — after forcing a tick-advance check —
returns the sum of the last `floor(k_seconds / seconds_per_bin)` bins of the
window (not `ceil`; the two agree only when `seconds_per_bin` divides
`k_seconds` or `seconds_per_bin = 1`), provided that floor quotient is at
least one (for a zero quotient the Python slice covers the whole window, see
C9). -/
theorem sum_floor_bins (h : TimeHistogram) (tnow : ℚ) (k : ℕ)
    (hb : 1 ≤ k / h.ticklen) :
    (h.sum tnow k).1 = (lastN (h.binsRead tnow).1 (k / h.ticklen)).sum ∧
    (h.sum tnow k).2 = h.check_for_tick_changed tnow := by
  constructor
  · simp only [TimeHistogram.sum, TimeHistogram.binsRead, pySliceLast, lastN]
    rw [if_neg (by omega)]
  · rfl

/-- Witness for C3's amended theorem at a concrete input. -/
theorem sum_floor_bins_witness :
    (histC3.sum 6 3).1 = (lastN (histC3.binsRead 6).1 (3 / histC3.ticklen)).sum ∧
    (histC3.sum 6 3).2 = histC3.check_for_tick_changed 6 :=
  sum_floor_bins histC3 6 3 (by norm_num [histC3_eq])

/-- Modelled from the claim's words (not from the source), for comparison:
`mean_over(k)` as C5 states it — `sum_over(k)` (the original `k`) divided by
the number of bins counted, where the bins counted are `k / seconds_per_bin`
clamped to the number of ticks actually elapsed since construction at the
time of the call, and `0` when no bins are counted. -/
def mean_claimed (h : TimeHistogram) (tnow : ℚ) (k : ℕ) : ℚ :=
  let bins_counted := min (k / h.ticklen) ((h.check_for_tick_changed tnow).n_ticks)
  if bins_counted = 0 then 0 else (h.sum tnow k).1 / (bins_counted : ℚ)

/-- Histogram with 1-second bins: `add(5)` at `t = 0`, `add(3)` at `t = 1`;
its state is `bins = [5, 3, 0, 0, 0]`, `current_bin = 1`, `last_tick = 1`,
`totalticktime = n_ticks = 1`. -/
def histC5 : TimeHistogram := ((mkHist 5 1 0).add 0 5).add 1 3

theorem histC5_eq : histC5 = ⟨1, 0, 1, 1, 1, 5, [5, 3, 0, 0, 0], 1⟩ := by
  norm_num [histC5, mkHist, TimeHistogram.add, TimeHistogram.check_for_tick_changed,
    TimeHistogram.ticksDue, TimeHistogram.tickBody, TimeHistogram.on_tick_change,
    Int.toNat_ofNat, List.replicate]

/-- C5 counterexample: calling `mean(2)` on `histC5` at time `5/2` (window
alive `5/2 ≥ 2` seconds, two ticks elapsed at call time). The code reads the
stale `totalticktime = 1` before the tick advance, clamps `k` to `1`, and
returns `sum(1) / 1 = 0`; the claim's prescription — `sum_over(2)` divided by
the bins counted (`2`, unclamped since the window has been alive at least
`2` seconds) — yields `3/2`. -/
theorem mean_clamp_cex :
    (histC5.mean (5/2) 2).1 = 0 ∧ mean_claimed histC5 (5/2) 2 = 3/2 ∧ (0 : ℚ) ≠ 3/2 := by
  refine ⟨?_, ?_, by norm_num⟩
  · norm_num [histC5_eq, TimeHistogram.mean, TimeHistogram.sum, TimeHistogram.binsRead,
      pySliceLast, TimeHistogram.check_for_tick_changed, TimeHistogram.ticksDue,
      TimeHistogram.tickBody, TimeHistogram.on_tick_change, TimeHistogram.orderedBins,
      Int.toNat_one]
  · norm_num [histC5_eq, mean_claimed, TimeHistogram.sum, TimeHistogram.binsRead,
      pySliceLast, TimeHistogram.check_for_tick_changed, TimeHistogram.ticksDue,
      TimeHistogram.tickBody, TimeHistogram.on_tick_change, TimeHistogram.orderedBins,
      Int.toNat_one]

/-- C5 (amended): `mean_over(k)` returns `sum_over(k')` divided by
`bins_counted`, where `k' = min(k, totalticktime)` clamps `k` by the
`totalticktime` counter as read *before* any tick advance (a gap still
pending at call time is not yet reflected in the clamp), and
`bins_counted = k' / seconds_per_bin`; since `totalticktime` is always
`n_ticks * seconds_per_bin`, a clamped call divides by the recorded tick
count. When `bins_counted` is zero it returns `0` (no division by zero) and
the conditional expression short-circuits, so the state is not advanced. -/
theorem mean_clamped_sum (h : TimeHistogram) (tnow : ℚ) (k : ℕ) :
    (h.mean tnow k).1 =
      if (min k h.totalticktime) / h.ticklen = 0 then 0
      else (h.sum tnow (min k h.totalticktime)).1
            / (((min k h.totalticktime) / h.ticklen : ℕ) : ℚ) := by
  have hmin : (if h.totalticktime < k then h.totalticktime else k) = min k h.totalticktime := by
    rcases Nat.lt_or_ge h.totalticktime k with hlt | hge
    · rw [if_pos hlt, Nat.min_eq_right (le_of_lt hlt)]
    · rw [if_neg (not_lt.mpr hge), Nat.min_eq_left hge]
  rw [TimeHistogram.mean, hmin]
  by_cases hb : (min k h.totalticktime) / h.ticklen = 0
  · rw [if_pos hb, if_pos hb]
  · rw [if_neg hb, if_neg hb]

/-- C2 counterexample: a burst record with all three fields present but a
non-numeric point count (`points = "xyz"`) makes `int(data['points'])` raise
an uncaught `ValueError` — the `Except.error ()` outcome — so the record is
not "recovered locally, never propagated". -/
theorem malformed_nonnumeric_raises_cex :
    (mkThroughputCounter 0).process_burst 0 ⟨some "a", some "b", some "xyz"⟩
      = Except.error () := rfl

/-- C2 (amended): burst records missing `identity`, `message id` or `points`,
and ack records missing `identity` or `message id`, are dropped with all
aggregator state unchanged and no error; however a burst record whose
`points` field is present but non-numeric raises an unhandled `ValueError`
from `int()` (no state is mutated — the failure happens before any mutation —
but the exception propagates out of `process_burst`). -/
theorem malformed_missing_fields_noop (c : ThroughputCounter) (tnow : ℚ) (data : Record) :
    (data.identity = none ∨ data.message_id = none ∨ data.points = none →
      c.process_burst tnow data = Except.ok c) ∧
    (data.identity = none ∨ data.message_id = none →
      c.process_ack tnow data = c) ∧
    (∀ ident mid pts, data = ⟨some ident, some mid, some pts⟩ → pyInt? pts = none →
      c.process_burst tnow data = Except.error ()) := by
  refine ⟨?_, ?_, ?_⟩
  · intro hmiss
    obtain ⟨oid, omid, opts⟩ := data
    rcases oid with _ | i <;> rcases omid with _ | m <;> rcases opts with _ | p <;>
      first
      | rfl
      | (exfalso; simp at hmiss)
  · intro hmiss
    obtain ⟨oid, omid, opts⟩ := data
    rcases oid with _ | i <;> rcases omid with _ | m <;>
      first
      | rfl
      | (exfalso; simp at hmiss)
  · intro ident mid pts heq hnone
    subst heq
    simp only [ThroughputCounter.process_burst, hnone]

/-- Witness for C2's amended theorem at concrete inputs: a burst missing its
identity, an ack missing its message id, and a burst with non-numeric point
count. -/
theorem malformed_missing_fields_noop_witness :
    (mkThroughputCounter 0).process_burst 0 ⟨none, some "b", some "3"⟩
        = Except.ok (mkThroughputCounter 0) ∧
    (mkThroughputCounter 0).process_ack 0 ⟨some "a", none, none⟩ = mkThroughputCounter 0 ∧
    (mkThroughputCounter 0).process_burst 0 ⟨some "a", some "b", some "xyz"⟩
        = Except.error () :=
  ⟨(malformed_missing_fields_noop (mkThroughputCounter 0) 0 ⟨none, some "b", some "3"⟩).1
      (Or.inl rfl),
   (malformed_missing_fields_noop (mkThroughputCounter 0) 0 ⟨some "a", none, none⟩).2.1
      (Or.inr rfl),
   (malformed_missing_fields_noop (mkThroughputCounter 0) 0
      ⟨some "a", some "b", some "xyz"⟩).2.2 "a" "b" "xyz" rfl (by decide)⟩

theorem check_at_last_tick (h : TimeHistogram) (tnow : ℚ) (heq : h.last_tick = tnow) :
    h.check_for_tick_changed tnow = h := by
  rw [← heq]
  exact check_last_tick h

theorem mkHist_check (n s : ℕ) (t : ℚ) :
    (mkHist n s t).check_for_tick_changed t = mkHist n s t :=
  check_at_last_tick _ _ rfl

theorem sum_pySliceLast_zeros (n s : ℕ) (t : ℚ) (b : ℕ) :
    (pySliceLast (mkHist n s t).orderedBins b).sum = 0 := by
  apply List.sum_eq_zero
  intro x hx
  have hx' : x ∈ (mkHist n s t).orderedBins := by
    rw [pySliceLast] at hx
    split at hx
    · exact hx
    · exact List.mem_of_mem_drop hx
  rw [TimeHistogram.orderedBins] at hx'
  rcases List.mem_append.mp hx' with hd | ht'
  · exact List.eq_of_mem_replicate (List.mem_of_mem_drop hd)
  · exact List.eq_of_mem_replicate (List.mem_of_mem_take ht')

theorem sum_pySliceLast_zeros_single (m : ℕ) (v : ℚ) (b : ℕ) (hb : 1 ≤ b) :
    (pySliceLast (List.replicate m (0 : ℚ) ++ [v]) b).sum = v := by
  rw [pySliceLast, if_neg (by omega), List.length_append, List.length_replicate,
    List.drop_append_eq_append_drop, List.drop_replicate]
  simp only [List.length_singleton, List.length_replicate]
  have h2 : m + 1 - b - m = 0 := by omega
  rw [h2, List.drop_zero, List.sum_append, List.sum_replicate]
  simp

theorem mkHist_add_succ (m s : ℕ) (t v : ℚ) :
    (mkHist (m + 1) s t).add t v
      = ⟨s, t, t, 0, 0, m + 1, (0 + v) :: List.replicate m 0, 0⟩ := by
  rw [TimeHistogram.add, mkHist_check]
  simp [mkHist, List.replicate_succ]

theorem fresh_sum (n s : ℕ) (t : ℚ) (k : ℕ) :
    ((mkHist n s t).sum t k).1 = 0 := by
  show (pySliceLast ((mkHist n s t).check_for_tick_changed t).orderedBins
    (k / (mkHist n s t).ticklen)).sum = 0
  rw [mkHist_check]
  exact sum_pySliceLast_zeros n s t _

theorem add_fresh_sum (n s : ℕ) (t v : ℚ) (k : ℕ) (hn : 0 < n) (hb : 1 ≤ k / s) :
    (((mkHist n s t).add t v).sum t k).1 = v := by
  cases n with
  | zero => omega
  | succ m =>
    rw [mkHist_add_succ]
    show (pySliceLast ((TimeHistogram.check_for_tick_changed
      ⟨s, t, t, 0, 0, m + 1, (0 + v) :: List.replicate m 0, 0⟩ t).orderedBins) (k / s)).sum = v
    rw [check_at_last_tick _ _ rfl, TimeHistogram.orderedBins]
    show (pySliceLast (((0 + v) :: List.replicate m 0).drop (0 + 1)
      ++ ((0 + v) :: List.replicate m 0).take (0 + 1)) (k / s)).sum = v
    rw [zero_add, List.drop_succ_cons, List.drop_zero, List.take_succ_cons, List.take_zero]
    rw [sum_pySliceLast_zeros_single m (0 + v) (k / s) hb]
    exact zero_add v

theorem mapSum_values (tnow : ℚ) (ks : List ℕ) :
    ∀ h : TimeHistogram, 0 < h.ticklen →
      (mapSum h tnow ks).1
        = ks.map (fun k =>
            (pySliceLast (h.check_for_tick_changed tnow).orderedBins (k / h.ticklen)).sum) := by
  induction ks with
  | nil => intro h _; rfl
  | cons k ks ih =>
    intro h ht
    have ht' : 0 < (h.check_for_tick_changed tnow).ticklen := by
      rw [check_ticklen]; exact ht
    have hrec := ih (h.check_for_tick_changed tnow) ht'
    rw [mapSum, List.map_cons]
    have hstate : (h.sum tnow k).2 = h.check_for_tick_changed tnow := rfl
    rw [hstate, hrec]
    simp only [check_idem h tnow ht, check_ticklen]
    rfl

/-- Aggregator state after one burst of 5 points (`identity = "a"`,
`message id = "b"`) at time `0` on a fresh counter, and no acks. -/
def counterC1 : ThroughputCounter :=
  ((mkThroughputCounter 0).process_burst 0
    ⟨some "a", some "b", some "5"⟩).toOption.getD (mkThroughputCounter 0)

theorem counterC1_eq :
    counterC1 = { mkThroughputCounter 0 with
      outstanding_bursts := [("a" ++ "b", (0, 5))],
      burst_hist := (mkHist 600 1 0).add 0 1,
      point_hist := (mkHist 600 1 0).add 0 5 } := by
  simp only [counterC1, ThroughputCounter.process_burst,
    show pyInt? "5" = some 5 from by decide, Except.toOption, Option.getD]
  simp [mkThroughputCounter, dictInsert]

/-- C1 counterexample: after exactly one burst (of 5 points) and zero acks,
the number of bursts started minus the number of acks received over a 10
second horizon is `1 - 0 = 1`, but `get_outstanding` returns `5 - 0 = 5`:
it sums the point-weighted `point_hist` (5 per that burst), not a count of
burst events. -/
theorem get_outstanding_counts_cex :
    (counterC1.get_outstanding 0 [10]).1 = [5] ∧ ((5 : ℚ)) ≠ 1 := by
  refine ⟨?_, by norm_num⟩
  rw [counterC1_eq]
  show [(((mkHist 600 1 0).add 0 5).sum 0 10).1 - ((mkHist 600 1 0).sum 0 10).1] = [5]
  rw [add_fresh_sum 600 1 0 5 10 (by norm_num) (by norm_num), fresh_sum]
  norm_num

/-- C1 (amended): for every list of horizons, `get_outstanding` returns, for
each horizon `h`, the POINT-WEIGHTED difference `point_hist.sum(h) -
ack_hist.sum(h)`: the sum of the point counts of bursts recorded during the
horizon minus the sum of the point counts of acked bursts during the horizon
(`process_burst` adds `points` to `point_hist` and `process_ack` adds the
stored `points` to `ack_hist`), not a count of burst events minus a count of
ack events. -/
theorem get_outstanding_pointweighted (c : ThroughputCounter) (tnow : ℚ) (hs : List ℕ)
    (htp : 0 < c.point_hist.ticklen) (hta : 0 < c.ack_hist.ticklen) :
    (c.get_outstanding tnow hs).1
      = hs.map (fun k =>
          (pySliceLast (c.point_hist.check_for_tick_changed tnow).orderedBins
              (k / c.point_hist.ticklen)).sum
          - (pySliceLast (c.ack_hist.check_for_tick_changed tnow).orderedBins
              (k / c.ack_hist.ticklen)).sum) := by
  have hp := mapSum_values tnow hs c.point_hist htp
  have ha := mapSum_values tnow hs c.ack_hist hta
  show List.zipWith (fun nb na => nb - na) (mapSum c.point_hist tnow hs).1
    (mapSum c.ack_hist tnow hs).1 = _
  rw [hp, ha, List.zipWith_map, List.zipWith_same]

/-- Witness for C1's amended theorem at a concrete input: a fresh counter and
the default horizon list `[10, 60]`. -/
theorem get_outstanding_pointweighted_witness :
    ((mkThroughputCounter 0).get_outstanding 0 [10, 60]).1
      = [10, 60].map (fun k =>
          (pySliceLast ((mkThroughputCounter 0).point_hist.check_for_tick_changed 0).orderedBins
              (k / (mkThroughputCounter 0).point_hist.ticklen)).sum
          - (pySliceLast ((mkThroughputCounter 0).ack_hist.check_for_tick_changed 0).orderedBins
              (k / (mkThroughputCounter 0).ack_hist.ticklen)).sum) :=
  get_outstanding_pointweighted (mkThroughputCounter 0) 0 [10, 60]
    (by norm_num [mkThroughputCounter, mkHist]) (by norm_num [mkThroughputCounter, mkHist])

/-! ## Dictionary lemmas -/

theorem dictFind_cons (p : String × (ℚ × ℤ)) (rest : List (String × (ℚ × ℤ))) (k : String) :
    dictFind (p :: rest) k = if p.1 = k then some p.2 else dictFind rest k := rfl

theorem filter_ne_of_find_none (d : List (String × (ℚ × ℤ))) (k : String)
    (h : dictFind d k = none) : d.filter (fun p => p.1 ≠ k) = d := by
  induction d with
  | nil => rfl
  | cons p rest ih =>
    rw [dictFind_cons] at h
    by_cases hp : p.1 = k
    · rw [if_pos hp] at h
      exact absurd h (by simp)
    · rw [if_neg hp] at h
      rw [List.filter_cons, if_pos (by simpa using hp), ih h]

theorem dictFind_filter_ne (d : List (String × (ℚ × ℤ))) (k : String) :
    dictFind (d.filter (fun p => p.1 ≠ k)) k = none := by
  induction d with
  | nil => rfl
  | cons p rest ih =>
    rw [List.filter_cons]
    by_cases hp : p.1 = k
    · rw [if_neg (by simpa using hp)]
      exact ih
    · rw [if_pos (by simpa using hp), dictFind_cons, if_neg hp]
      exact ih

theorem dictFind_append_of_none (d1 d2 : List (String × (ℚ × ℤ))) (k : String)
    (h : dictFind d1 k = none) : dictFind (d1 ++ d2) k = dictFind d2 k := by
  induction d1 with
  | nil => rfl
  | cons p rest ih =>
    rw [dictFind_cons] at h
    by_cases hp : p.1 = k
    · rw [if_pos hp] at h
      exact absurd h (by simp)
    · rw [if_neg hp] at h
      rw [List.cons_append, dictFind_cons, if_neg hp, ih h]

theorem dictInsert_of_none (d : List (String × (ℚ × ℤ))) (k : String) (v : ℚ × ℤ)
    (h : dictFind d k = none) : dictInsert d k v = d ++ [(k, v)] := by
  rw [dictInsert, filter_ne_of_find_none d k h]

theorem dictFind_insert_self (d : List (String × (ℚ × ℤ))) (k : String) (v : ℚ × ℤ) :
    dictFind (dictInsert d k v) k = some v := by
  rw [dictInsert, dictFind_append_of_none _ _ _ (dictFind_filter_ne d k), dictFind_cons]
  simp

theorem dictPop_insert (d : List (String × (ℚ × ℤ))) (k : String) (v : ℚ × ℤ)
    (h : dictFind d k = none) : dictPop (dictInsert d k v) k = d := by
  rw [dictInsert_of_none d k v h, dictPop, List.filter_append,
    filter_ne_of_find_none d k h]
  simp

/-- Aggregator state after one burst of 7 points (key `"c" ++ "d"`) at time
`0` on a fresh counter: one outstanding entry, none for key `"a" ++ "b"`. -/
def counterC6 : ThroughputCounter :=
  ((mkThroughputCounter 0).process_burst 0
    ⟨some "c", some "d", some "7"⟩).toOption.getD (mkThroughputCounter 0)

/-- C6 counterexample: `counterC6` has no outstanding entry for key
`"a" ++ "b"` (the claim's precondition), yet `process_burst("a","b",3)`
followed immediately by `process_ack("a","b")` leaves
`total_outstanding_points() = 7` (the other in-flight burst), not `0`. -/
theorem roundtrip_total_cex :
    dictFind counterC6.outstanding_bursts ("a" ++ "b") = none ∧
    (((counterC6.process_burst 0 ⟨some "a", some "b", some "3"⟩).toOption.getD
        counterC6).process_ack 0
        ⟨some "a", some "b", none⟩).get_total_outstanding_points = 7 ∧
    (7 : ℤ) ≠ 0 := by
  refine ⟨by decide, by decide, by decide⟩

/-- C6 (amended): from any state with no outstanding entry for key
`identity ++ message_id`, `process_burst(id, mid, p)` at time `t1` followed by
`process_ack(id, mid)` at time `t2` restores the outstanding table to exactly
its prior contents, so `total_outstanding_points()` returns to its prior
value — `0` precisely when the correlator was empty, not in general — and the
ack adds exactly `p` to the acks-weighted-by-points window's current bin,
exactly `1` to the acked-bursts window's current bin, and records a latency
equal to the elapsed clock time `t2 - t1` in the latency window. -/
theorem roundtrip_contributions (c : ThroughputCounter) (t1 t2 : ℚ)
    (ident mid pts : String) (p : ℤ)
    (hnone : dictFind c.outstanding_bursts (ident ++ mid) = none)
    (hp : pyInt? pts = some p)
    (hIack : c.ack_hist.Inv) (hIab : c.acked_burst_hist.Inv) (hIlat : c.latency_hist.Inv) :
    ∃ c1, c.process_burst t1 ⟨some ident, some mid, some pts⟩ = Except.ok c1 ∧
      c1.outstanding_bursts = c.outstanding_bursts ++ [(ident ++ mid, (t1, p))] ∧
      ((c1.process_ack t2 ⟨some ident, some mid, none⟩).outstanding_bursts
          = c.outstanding_bursts) ∧
      ((c1.process_ack t2 ⟨some ident, some mid, none⟩).get_total_outstanding_points
          = c.get_total_outstanding_points) ∧
      (c.outstanding_bursts = [] →
        (c1.process_ack t2 ⟨some ident, some mid, none⟩).get_total_outstanding_points = 0) ∧
      ((c1.process_ack t2 ⟨some ident, some mid, none⟩).ack_hist.currentVal
          = (c1.ack_hist.check_for_tick_changed t2).currentVal + (p : ℚ)) ∧
      ((c1.process_ack t2 ⟨some ident, some mid, none⟩).acked_burst_hist.currentVal
          = (c1.acked_burst_hist.check_for_tick_changed t2).currentVal + 1) ∧
      ((c1.process_ack t2 ⟨some ident, some mid, none⟩).latency_hist.currentVal
          = (c1.latency_hist.check_for_tick_changed t2).currentVal + (t2 - t1)) := by
  refine ⟨⟨c.point_hist.add t1 (p : ℚ), c.burst_hist.add t1 1, c.acked_burst_hist,
    c.latency_hist, c.ack_hist,
    dictInsert c.outstanding_bursts (ident ++ mid) (t1, p)⟩, ?_, ?_, ?_, ?_, ?_, ?_, ?_, ?_⟩
  case _ => simp only [ThroughputCounter.process_burst, hp]
  case _ => exact dictInsert_of_none _ _ _ hnone
  all_goals
    have hfind : dictFind (dictInsert c.outstanding_bursts (ident ++ mid) (t1, p))
        (ident ++ mid) = some (t1, p) := dictFind_insert_self _ _ _
  all_goals
    simp only [ThroughputCounter.process_ack, hfind]
  case _ => exact dictPop_insert _ _ _ hnone
  case _ =>
    simp only [ThroughputCounter.get_total_outstanding_points,
      dictPop_insert _ _ _ hnone]
  case _ =>
    intro he
    have h3 := dictPop_insert c.outstanding_bursts (ident ++ mid) (t1, p) hnone
    rw [he] at h3
    simp only [ThroughputCounter.get_total_outstanding_points, he, h3,
      List.map_nil, List.sum_nil]
  case _ => exact currentVal_add c.ack_hist t2 (p : ℚ) hIack
  case _ => exact currentVal_add c.acked_burst_hist t2 1 hIab
  case _ => exact currentVal_add c.latency_hist t2 (t2 - t1) hIlat

/-- Witness for C6's amended theorem at a concrete input: a fresh (empty)
counter, a 3-point burst at `t = 0` acked at `t = 1`. -/
theorem roundtrip_contributions_witness :
    ∃ c1, (mkThroughputCounter 0).process_burst 0 ⟨some "a", some "b", some "3"⟩
        = Except.ok c1 ∧
      c1.outstanding_bursts
          = (mkThroughputCounter 0).outstanding_bursts ++ [("a" ++ "b", (0, 3))] ∧
      ((c1.process_ack 1 ⟨some "a", some "b", none⟩).outstanding_bursts
          = (mkThroughputCounter 0).outstanding_bursts) ∧
      ((c1.process_ack 1 ⟨some "a", some "b", none⟩).get_total_outstanding_points
          = (mkThroughputCounter 0).get_total_outstanding_points) ∧
      ((mkThroughputCounter 0).outstanding_bursts = [] →
        (c1.process_ack 1 ⟨some "a", some "b", none⟩).get_total_outstanding_points = 0) ∧
      ((c1.process_ack 1 ⟨some "a", some "b", none⟩).ack_hist.currentVal
          = (c1.ack_hist.check_for_tick_changed 1).currentVal + ((3 : ℤ) : ℚ)) ∧
      ((c1.process_ack 1 ⟨some "a", some "b", none⟩).acked_burst_hist.currentVal
          = (c1.acked_burst_hist.check_for_tick_changed 1).currentVal + 1) ∧
      ((c1.process_ack 1 ⟨some "a", some "b", none⟩).latency_hist.currentVal
          = (c1.latency_hist.check_for_tick_changed 1).currentVal + (1 - 0)) :=
  roundtrip_contributions (mkThroughputCounter 0) 0 1 "a" "b" "3" 3 rfl (by decide)
    (by constructor <;> norm_num [mkThroughputCounter, mkHist])
    (by constructor <;> norm_num [mkThroughputCounter, mkHist])
    (by constructor <;> norm_num [mkThroughputCounter, mkHist])

theorem iterate_tickBody_zeros (h : TimeHistogram) (m : ℕ) (hI : h.Inv) :
    ∀ j, 1 ≤ j → j ≤ min m h.nbins →
      (TimeHistogram.tickBody^[m] h).bins.getD ((h.current_bin + j) % h.nbins) 0 = 0 := by
  induction m with
  | zero => intro j h1 h2; omega
  | succ m ih =>
    intro j h1 h2
    rw [Function.iterate_succ_apply', tickBody_bins]
    have hnb : (TimeHistogram.tickBody^[m] h).nbins = h.nbins := iterate_tickBody_nbins h m
    have hcb : (TimeHistogram.tickBody^[m] h).current_bin = (h.current_bin + m) % h.nbins :=
      iterate_tickBody_current_bin h m hI.2
    have hlen : (TimeHistogram.tickBody^[m] h).bins.length = h.bins.length :=
      iterate_tickBody_bins_length h m
    have hn : 0 < h.nbins := lt_of_le_of_lt (Nat.zero_le _) hI.2
    have hidx : ((TimeHistogram.tickBody^[m] h).current_bin + 1)
        % (TimeHistogram.tickBody^[m] h).nbins = (h.current_bin + (m + 1)) % h.nbins := by
      rw [hcb, hnb]
      have hmod := (Nat.mod_modEq (h.current_bin + m) h.nbins).add_right 1
      simp only [← Nat.add_assoc]
      exact hmod
    rw [List.getD_eq_getElem?_getD, List.getElem?_set, hidx]
    by_cases heq : (h.current_bin + (m + 1)) % h.nbins = (h.current_bin + j) % h.nbins
    · rw [if_pos heq, if_pos (by rw [hlen, hI.1]; exact Nat.mod_lt _ hn)]
      rfl
    · rw [if_neg heq, ← List.getD_eq_getElem?_getD]
      rcases Nat.lt_or_ge j (m + 1) with hj | hj
      · exact ih j h1 (by omega)
      · have hjm : j = m + 1 := by omega
        exact absurd (by rw [hjm]) heq

theorem orderedBins_getD (h : TimeHistogram) (hI : h.Inv) (i : ℕ) (hi : i < h.nbins) :
    h.orderedBins.getD i 0 = h.bins.getD ((h.current_bin + 1 + i) % h.nbins) 0 := by
  obtain ⟨hlen, hcb⟩ := hI
  rw [TimeHistogram.orderedBins, List.getD_eq_getElem?_getD, List.getD_eq_getElem?_getD]
  rcases Nat.lt_or_ge i ((h.bins.drop (h.current_bin + 1)).length) with hc | hc
  · rw [List.getElem?_append_left hc, List.getElem?_drop]
    have hmod : (h.current_bin + 1 + i) % h.nbins = h.current_bin + 1 + i := by
      apply Nat.mod_eq_of_lt
      rw [List.length_drop, hlen] at hc
      omega
    rw [hmod]
  · rw [List.getElem?_append_right hc, List.getElem?_take]
    rw [List.length_drop, hlen] at hc
    have hmod : (h.current_bin + 1 + i) % h.nbins = h.current_bin + 1 + i - h.nbins := by
      rw [Nat.mod_eq_sub_mod (by omega)]
      apply Nat.mod_eq_of_lt
      omega
    have hj : i - (h.bins.drop (h.current_bin + 1)).length
        = h.current_bin + 1 + i - h.nbins := by
      rw [List.length_drop, hlen]
      omega
    have hjlt : i - (h.bins.drop (h.current_bin + 1)).length < h.current_bin + 1 := by
      rw [List.length_drop, hlen]
      omega
    rw [if_pos hjlt, hj, hmod]

/-- C4: if the tick-advance check performed at `tnow` is due for `m ≥ 1` whole
tick intervals (no `add` call happened in between, so `ticksDue` accumulated
to `m`), then the check advances the current-bin index exactly `m` times
(each step zeroing the newly current bin) while counting `m` ticks, and the
ordered-bins read afterward has its most recent `min(m, bin_count)` bins
equal to zero. -/
theorem gap_zeroes_recent_bins (h : TimeHistogram) (tnow : ℚ) (m : ℕ)
    (hI : h.Inv) (hm : 1 ≤ m) (hdue : h.ticksDue tnow = m) :
    (h.binsRead tnow).2 = TimeHistogram.tickBody^[m] h ∧
    (h.binsRead tnow).2.current_bin = (h.current_bin + m) % h.nbins ∧
    (h.binsRead tnow).2.n_ticks = h.n_ticks + m ∧
    ∀ i, h.nbins - min m h.nbins ≤ i → i < h.nbins →
      (h.binsRead tnow).1.getD i 0 = 0 := by
  have hstate : (h.binsRead tnow).2 = TimeHistogram.tickBody^[m] h := by
    show h.check_for_tick_changed tnow = _
    rw [TimeHistogram.check_for_tick_changed, hdue]
  refine ⟨hstate, ?_, ?_, ?_⟩
  · rw [hstate, iterate_tickBody_current_bin h m hI.2]
  · rw [hstate, iterate_tickBody_n_ticks]
  · intro i hge hlt
    have hval : (h.binsRead tnow).1 = (TimeHistogram.tickBody^[m] h).orderedBins := by
      show (h.check_for_tick_changed tnow).orderedBins = _
      rw [TimeHistogram.check_for_tick_changed, hdue]
    have hIX : (TimeHistogram.tickBody^[m] h).Inv := Inv_iterate_tickBody h m hI
    have hnb : (TimeHistogram.tickBody^[m] h).nbins = h.nbins := iterate_tickBody_nbins h m
    have hcbX : (TimeHistogram.tickBody^[m] h).current_bin
        = (h.current_bin + m) % h.nbins := iterate_tickBody_current_bin h m hI.2
    have hn : 0 < h.nbins := lt_of_le_of_lt (Nat.zero_le _) hI.2
    rw [hval, orderedBins_getD _ hIX i (by rw [hnb]; exact hlt)]
    have hj1 : 1 ≤ (m + i) % h.nbins + 1 := by omega
    have hj2 : (m + i) % h.nbins + 1 ≤ min m h.nbins := by
      rcases Nat.lt_or_ge m h.nbins with hc | hc
      · have h1 : (m + i) % h.nbins = m + i - h.nbins := by
          rw [Nat.mod_eq_sub_mod (by omega)]
          apply Nat.mod_eq_of_lt
          omega
        omega
      · have := Nat.mod_lt (m + i) hn
        omega
    have hidx : ((TimeHistogram.tickBody^[m] h).current_bin + 1 + i)
        % (TimeHistogram.tickBody^[m] h).nbins
        = (h.current_bin + ((m + i) % h.nbins + 1)) % h.nbins := by
      rw [hcbX, hnb]
      have e1 : ((h.current_bin + m) % h.nbins + (1 + i)) % h.nbins
          = (h.current_bin + m + (1 + i)) % h.nbins :=
        (Nat.mod_modEq (h.current_bin + m) h.nbins).add_right (1 + i)
      have e2 : (h.current_bin + ((m + i) % h.nbins + 1)) % h.nbins
          = (h.current_bin + (m + i + 1)) % h.nbins :=
        Nat.ModEq.add_left h.current_bin ((Nat.mod_modEq (m + i) h.nbins).add_right 1)
      rw [e2, show (h.current_bin + m) % h.nbins + 1 + i
        = (h.current_bin + m) % h.nbins + (1 + i) from by omega, e1]
      congr 1
      omega
    rw [hidx]
    exact iterate_tickBody_zeros h m hI ((m + i) % h.nbins + 1) hj1 hj2

/-- Witness for C4 at a concrete input: a 3-bin histogram whose first bin
holds one count, read after a gap of two whole ticks; both newest bins of the
ordered read are zero and the counters advanced by 2. -/
theorem gap_zeroes_recent_bins_witness :
    (((mkHist 3 1 0).add 0 1).binsRead (5/2)).2.current_bin
        = (((mkHist 3 1 0).add 0 1).current_bin + 2) % ((mkHist 3 1 0).add 0 1).nbins ∧
    (((mkHist 3 1 0).add 0 1).binsRead (5/2)).2.n_ticks
        = ((mkHist 3 1 0).add 0 1).n_ticks + 2 ∧
    (((mkHist 3 1 0).add 0 1).binsRead (5/2)).1.getD 1 0 = 0 ∧
    (((mkHist 3 1 0).add 0 1).binsRead (5/2)).1.getD 2 0 = 0 := by
  have happ := gap_zeroes_recent_bins ((mkHist 3 1 0).add 0 1) (5/2) 2
    (Inv_add _ _ _ (by norm_num [TimeHistogram.Inv, mkHist])) (by norm_num)
    (by rw [mkHist_add_succ]
        show (⌊((5/2 : ℚ) - 0) / ((1 : ℕ) : ℚ)⌋).toNat = 2
        have hfl : (⌊((5/2 : ℚ) - 0) / ((1 : ℕ) : ℚ)⌋) = 2 := by norm_num
        rw [hfl]
        rfl)
  exact ⟨happ.2.1, happ.2.2.1, happ.2.2.2 1 (by norm_num [mkHist_add_succ]) (by norm_num [mkHist_add_succ]),
    happ.2.2.2 2 (by norm_num [mkHist_add_succ]) (by norm_num [mkHist_add_succ])⟩
